import Mathlib

/-!
Shallow embedding of `src/pos_system.py`, a single-till point-of-sale system.

Modelling conventions:
* Python `float` money values become `ℚ` (all arithmetic in the claims is exact).
* Python `int` quantities, stocks and points become `ℤ`.
* The SQLite tables become lists of row structures inside a `DBState`; each SQL
  statement is modelled semantically (an `UPDATE ... WHERE` is a map over the
  rows, an `INSERT` appends, a `PRIMARY KEY` violation makes the statement fail).
* `sqlite3` raises on a duplicate primary key; `save_order` catches the
  exception and returns `False` with the transaction rolled back, which the
  model renders as `(false, db)` (no state change).
* SQLite `CAST(x AS INTEGER)` truncates toward zero (`ratCastInt`), and the
  `LIKE` operator is case-insensitive for ASCII characters (`likeMatch`).
* Human-readable message strings are abstracted into inductive message types
  (`ScanMsg`, `PayMsg`) carrying the data interpolated into the Python string;
  the receipt text of a successful payment is abstracted as `PayMsg.paid`.
* Timestamp-derived values (generated order ids, `created_at`) are passed in as
  explicit parameters, since the model has no clock.
-/

namespace POS

/-- The `Product` dataclass, which is also the row shape of the `products` table. -/
structure Product where
  id : ℤ
  name : String
  price : ℚ
  category : String
  barcode : String
  stock : ℤ
  min_stock : ℤ
  active : Bool
deriving DecidableEq, Repr

/-- The `OrderItem` dataclass. -/
structure OrderItem where
  product_id : ℤ
  product_name : String
  unit_price : ℚ
  quantity : ℤ
  discount : ℚ
deriving DecidableEq, Repr

/-- `OrderItem.subtotal`: `unit_price * quantity - discount`. -/
def OrderItem.subtotal (it : OrderItem) : ℚ :=
  it.unit_price * it.quantity - it.discount

/-- The `Order` dataclass. -/
structure Order where
  order_id : String
  items : List OrderItem
  member_id : Option String
  payment_method : String
  payment_status : String
  created_at : String
deriving DecidableEq, Repr

/-- `Order.total`: sum of the item subtotals. -/
def Order.total (o : Order) : ℚ :=
  (o.items.map OrderItem.subtotal).sum

/-- `Order.item_count`: sum of the item quantities. -/
def Order.item_count (o : Order) : ℤ :=
  (o.items.map OrderItem.quantity).sum

/-- The loop body of `Order.add_item`: increment the quantity of the first
line with the given `product_id`, or append a fresh line. -/
def addItemList (items : List OrderItem) (product_id : ℤ) (product_name : String)
    (unit_price : ℚ) (quantity : ℤ) : List OrderItem :=
  match items with
  | [] => [⟨product_id, product_name, unit_price, quantity, 0⟩]
  | it :: rest =>
    if it.product_id = product_id then
      { it with quantity := it.quantity + quantity } :: rest
    else
      it :: addItemList rest product_id product_name unit_price quantity

/-- `Order.add_item`. -/
def Order.add_item (o : Order) (product_id : ℤ) (product_name : String)
    (unit_price : ℚ) (quantity : ℤ) : Order :=
  { o with items := addItemList o.items product_id product_name unit_price quantity }

/-- `Order.remove_item`. -/
def Order.remove_item (o : Order) (product_id : ℤ) : Order :=
  { o with items := o.items.filter (fun it => decide (it.product_id ≠ product_id)) }

/-- A row of the `orders` table. -/
structure OrderRow where
  order_id : String
  member_id : Option String
  payment_method : String
  payment_status : String
  total_amount : ℚ
  created_at : String
deriving DecidableEq, Repr

/-- A row of the `order_items` table (the autoincrement id is left implicit:
it is the position in the list and no claim mentions it). -/
structure OrderItemRow where
  order_id : String
  product_id : ℤ
  product_name : String
  unit_price : ℚ
  quantity : ℤ
  discount : ℚ
deriving DecidableEq, Repr

/-- A row of the `members` table. -/
structure Member where
  member_id : String
  name : String
  phone : String
  points : ℤ
  total_spent : ℚ
deriving DecidableEq, Repr

/-- The four SQLite tables of `Database`. -/
structure DBState where
  products : List Product
  orders : List OrderRow
  order_items : List OrderItemRow
  members : List Member
deriving DecidableEq, Repr

/-- SQLite `CAST(q AS INTEGER)`: truncation toward zero. -/
def ratCastInt (q : ℚ) : ℤ :=
  if 0 ≤ q then ⌊q⌋ else ⌈q⌉

/-- ASCII lower-casing, the notion of case SQLite's `LIKE` uses. -/
def lowerAscii (c : Char) : Char :=
  if 'A' ≤ c ∧ c ≤ 'Z' then Char.ofNat (c.toNat + 32) else c

/-- SQLite `LIKE` pattern matching: `%` matches any sequence of zero or more
characters (the rest of the pattern must match some suffix), `_` matches any
single character, and letter comparison is ASCII case-insensitive. -/
def likeMatch : List Char → List Char → Bool
  | [], s => s.isEmpty
  | p :: ps, s =>
    if p = '%' then
      s.tails.any (fun t => likeMatch ps t)
    else
      match s with
      | [] => false
      | c :: s' =>
        (p = '_' || lowerAscii p = lowerAscii c) && likeMatch ps s'

/-- `name LIKE '%keyword%'` as executed by `Database.search_products`. -/
def likeContains (keyword s : String) : Bool :=
  likeMatch ('%' :: (keyword.toList ++ ['%'])) s.toList

/-- `Database.get_product`: `SELECT * FROM products WHERE id = ? AND active = 1`
(first, and by primary key only, matching row). -/
def get_product (db : DBState) (product_id : ℤ) : Option Product :=
  db.products.find? (fun p => decide (p.id = product_id) && p.active)

/-- `Database.get_product_by_barcode`. -/
def get_product_by_barcode (db : DBState) (barcode : String) : Option Product :=
  db.products.find? (fun p => decide (p.barcode = barcode) && p.active)

/-- `Database.search_products`: keyword search over name and barcode with
`LIKE '%keyword%'`, or all active products when the keyword is empty
(Python truthiness of the string). -/
def search_products (db : DBState) (keyword : String) : List Product :=
  if keyword ≠ "" then
    db.products.filter (fun p =>
      (likeContains keyword p.name || likeContains keyword p.barcode) && p.active)
  else
    db.products.filter (fun p => p.active)

/-- The row transformation of `UPDATE products SET stock = stock - ?
WHERE id = ? AND stock >= ?`: rows failing the `WHERE` clause are untouched. -/
def stockUpd (product_id quantity : ℤ) (p : Product) : Product :=
  if p.id = product_id ∧ quantity ≤ p.stock then
    { p with stock := p.stock - quantity }
  else p

/-- `Database.update_stock`:
`UPDATE products SET stock = stock - ? WHERE id = ? AND stock >= ?`,
returning `rowcount > 0`. -/
def update_stock (db : DBState) (product_id quantity : ℤ) : Bool × DBState :=
  (db.products.any (fun p => decide (p.id = product_id ∧ quantity ≤ p.stock)),
   { db with products := db.products.map (stockUpd product_id quantity) })

/-- The row transformation of the member-loyalty `UPDATE` inside
`Database.save_order`: `SET total_spent = total_spent + ?,
points = points + CAST(? * 10 AS INTEGER) WHERE member_id = ?`. -/
def memberUpd (member_id : String) (total : ℚ) (m : Member) : Member :=
  if m.member_id = member_id then
    { m with
      total_spent := m.total_spent + total,
      points := m.points + ratCastInt (total * 10) }
  else m

/-- The member-loyalty `UPDATE` inside `Database.save_order`. A member id
matching no row is a silent no-op. -/
def apply_member_sale (db : DBState) (member_id : String) (total : ℚ) : DBState :=
  { db with members := db.members.map (memberUpd member_id total) }

/-- The per-item loop of `Database.save_order`: insert the `order_items` row,
then call `update_stock` (whose boolean result the source discards). -/
def applyItems (db : DBState) (oid : String) (items : List OrderItem) : DBState :=
  items.foldl
    (fun d it =>
      let d1 := { d with
        order_items := d.order_items ++
          [⟨oid, it.product_id, it.product_name, it.unit_price, it.quantity, it.discount⟩] }
      (update_stock d1 it.product_id it.quantity).2)
    db

/-- The committing branch of `Database.save_order`: insert the header row,
run the per-item loop, and apply the member update when `order.member_id` is
truthy (Python: `if order.member_id:` — `None` and `""` are falsy). -/
def commitOrder (db : DBState) (o : Order) : DBState :=
  let db1 := { db with
    orders := db.orders ++
      [⟨o.order_id, o.member_id, o.payment_method, o.payment_status, o.total, o.created_at⟩] }
  let db2 := applyItems db1 o.order_id o.items
  match o.member_id with
  | some mid => if mid ≠ "" then apply_member_sale db2 mid o.total else db2
  | none => db2

/-- `Database.save_order`. A duplicate `order_id` violates the `orders` primary
key: sqlite3 raises on the very first `INSERT`, the `except` branch returns
`False`, and nothing was committed — modelled as `(false, db)`. Otherwise the
whole commit goes through. -/
def save_order (db : DBState) (o : Order) : Bool × DBState :=
  if db.orders.any (fun r => decide (r.order_id = o.order_id)) then
    (false, db)
  else
    (true, commitOrder db o)

/-- The result shape of `Database.get_daily_sales`. -/
structure DailySales where
  order_count : ℕ
  total_sales : ℚ
  avg_order : ℚ
deriving DecidableEq, Repr

/-- SQLite `DATE(created_at)` on the `%Y-%m-%d %H:%M:%S` timestamps the
program writes: the first 10 characters. -/
def dateOf (created_at : String) : String :=
  ⟨created_at.toList.take 10⟩

/-- `Database.get_daily_sales date`: `COUNT`, `SUM`, `AVG` of `total_amount`
over orders whose `DATE(created_at)` equals `date`; when the count is zero the
Python falls back to the all-zero dictionary. -/
def get_daily_sales (db : DBState) (date : String) : DailySales :=
  let rows := db.orders.filter (fun r => decide (dateOf r.created_at = date))
  if rows.length ≠ 0 then
    ⟨rows.length, (rows.map OrderRow.total_amount).sum,
      (rows.map OrderRow.total_amount).sum / (rows.length : ℚ)⟩
  else
    ⟨0, 0, 0⟩

/-- `Database.get_member`. -/
def get_member (db : DBState) (member_id : String) : Option Member :=
  db.members.find? (fun m => decide (m.member_id = member_id))

/-- The messages `POSSystem.scan_product` / `scan_barcode` interpolate. -/
inductive ScanMsg where
  | noActiveOrder
  | productNotFound (product_id : ℤ)
  | insufficientStock (available : ℤ)
  | added (product_name : String) (quantity : ℤ)
  | barcodeNotFound (barcode : String)
deriving DecidableEq, Repr

/-- The messages `POSSystem.process_payment` returns; a successful payment
returns the receipt text, abstracted here as `paid`. -/
inductive PayMsg where
  | noOrder
  | insufficientAmount (shortfall : ℚ)
  | saveFailed
  | paid
deriving DecidableEq, Repr

/-- The mutable state of `POSSystem`: the database plus the nullable
`current_order`. -/
structure POSState where
  db : DBState
  current_order : Option Order
deriving DecidableEq, Repr

/-- `POSSystem.start_order`. The source generates `order_id` and `created_at`
from the wall clock; the model takes them as parameters. -/
def start_order (s : POSState) (member_id : Option String)
    (oid created_at : String) : POSState :=
  { s with current_order := some ⟨oid, [], member_id, "Cash", "Pending", created_at⟩ }

/-- `POSSystem.scan_product`. -/
def scan_product (s : POSState) (product_id quantity : ℤ) :
    (Bool × ScanMsg) × POSState :=
  match s.current_order with
  | none => ((false, .noActiveOrder), s)
  | some o =>
    match get_product s.db product_id with
    | none => ((false, .productNotFound product_id), s)
    | some p =>
      if p.stock < quantity then
        ((false, .insufficientStock p.stock), s)
      else
        ((true, .added p.name quantity),
         { s with current_order := some (o.add_item p.id p.name p.price quantity) })

/-- `POSSystem.scan_barcode`. -/
def scan_barcode (s : POSState) (barcode : String) (quantity : ℤ) :
    (Bool × ScanMsg) × POSState :=
  match get_product_by_barcode s.db barcode with
  | some p => scan_product s p.id quantity
  | none => ((false, .barcodeNotFound barcode), s)

/-- `POSSystem.process_payment`. The payment method and `Paid` status are set
on the order *before* the save is attempted; on save failure the mutated order
stays current. On success the change is computed, the receipt generated, and
`current_order` cleared. -/
def process_payment (s : POSState) (method : String) (amount : ℚ) :
    (Bool × PayMsg × ℚ) × POSState :=
  match s.current_order with
  | none => ((false, .noOrder, 0), s)
  | some o =>
    if amount < o.total then
      ((false, .insufficientAmount (o.total - amount), 0), s)
    else
      let o' := { o with payment_method := method, payment_status := "Paid" }
      let res := save_order s.db o'
      if res.1 then
        ((true, .paid, amount - o'.total), ⟨res.2, none⟩)
      else
        ((false, .saveFailed, 0), ⟨res.2, some o'⟩)

/-- `POSSystem.cancel_order`. -/
def cancel_order (s : POSState) : Bool × POSState :=
  match s.current_order with
  | some _ => (true, { s with current_order := none })
  | none => (false, s)

/-- Stock of the (first) `products` row with the given id, as `Database`
lookups see it. -/
def stockOf (db : DBState) (product_id : ℤ) : Option ℤ :=
  (db.products.find? (fun p => decide (p.id = product_id))).map Product.stock

/-- Number of order lines carrying the given product id. -/
def linesFor (items : List OrderItem) (product_id : ℤ) : ℕ :=
  (items.filter (fun it => decide (it.product_id = product_id))).length

/-- Total quantity carried by the order lines with the given product id. -/
def qtyFor (items : List OrderItem) (product_id : ℤ) : ℤ :=
  ((items.filter (fun it => decide (it.product_id = product_id))).map
    OrderItem.quantity).sum

/-- The unit price `add_item` charges for a product: the snapshot price of the
existing merged line when there is one, the freshly scanned price otherwise. -/
def linePrice (items : List OrderItem) (product_id : ℤ) (fallback : ℚ) : ℚ :=
  ((items.find? (fun it => decide (it.product_id = product_id))).map
    OrderItem.unit_price).getD fallback

/-- A run of `scan_product` calls for one product id: the conjunction of the
success flags, and the final state. -/
def scanSeq (s : POSState) (product_id : ℤ) : List ℤ → Bool × POSState
  | [] => (true, s)
  | q :: qs =>
    let r := scan_product s product_id q
    let rest := scanSeq r.2 product_id qs
    (r.1.1 && rest.1, rest.2)

/-- Plain case-sensitive list-prefix test (spec vocabulary for `search`). -/
def prefixB : List Char → List Char → Bool
  | [], _ => true
  | _ :: _, [] => false
  | a :: k, c :: t => a = c && prefixB k t

/-- Plain case-sensitive substring test (spec vocabulary for `search`):
`k` occurs contiguously inside `s`. -/
def subB (k s : List Char) : Bool :=
  s.tails.any (fun t => prefixB k t)

/-! ### Lemmas about `Order.add_item` -/

theorem linesFor_addItemList (items : List OrderItem) (pid : ℤ) (n : String)
    (pr : ℚ) (q : ℤ) :
    linesFor (addItemList items pid n pr q) pid =
      if linesFor items pid = 0 then 1 else linesFor items pid := by
  induction items with
  | nil => simp [addItemList, linesFor]
  | cons it rest ih =>
    by_cases h : it.product_id = pid
    · simp [addItemList, h, linesFor, List.filter_cons]
    · simp only [addItemList, if_neg h, linesFor, List.filter_cons, decide_eq_true_eq, h,
        if_false, ite_false]
      exact ih

theorem qtyFor_addItemList (items : List OrderItem) (pid : ℤ) (n : String)
    (pr : ℚ) (q : ℤ) :
    qtyFor (addItemList items pid n pr q) pid = qtyFor items pid + q := by
  induction items with
  | nil => simp [addItemList, qtyFor]
  | cons it rest ih =>
    by_cases h : it.product_id = pid
    · simp [addItemList, h, qtyFor, List.filter_cons]
      ring
    · simp only [addItemList, if_neg h, qtyFor, List.filter_cons, decide_eq_true_eq, h,
        if_false, ite_false]
      exact ih

theorem linePrice_cons_pos {it : OrderItem} {pid : ℤ} (rest : List OrderItem)
    (pr : ℚ) (h : it.product_id = pid) :
    linePrice (it :: rest) pid pr = it.unit_price := by
  simp [linePrice, List.find?_cons_of_pos, h]

theorem linePrice_cons_neg {it : OrderItem} {pid : ℤ} (rest : List OrderItem)
    (pr : ℚ) (h : ¬it.product_id = pid) :
    linePrice (it :: rest) pid pr = linePrice rest pid pr := by
  simp only [linePrice]
  rw [List.find?_cons_of_neg _ (by simpa using h)]

theorem subtotal_sum_addItemList (items : List OrderItem) (pid : ℤ) (n : String)
    (pr : ℚ) (q : ℤ) :
    ((addItemList items pid n pr q).map OrderItem.subtotal).sum =
      (items.map OrderItem.subtotal).sum + linePrice items pid pr * q := by
  induction items with
  | nil => simp [addItemList, linePrice, OrderItem.subtotal]
  | cons it rest ih =>
    by_cases h : it.product_id = pid
    · rw [linePrice_cons_pos rest pr h]
      simp [addItemList, h, OrderItem.subtotal]
      ring
    · rw [linePrice_cons_neg rest pr h]
      simp only [addItemList, if_neg h, List.map_cons, List.sum_cons, ih]
      ring

theorem quantity_sum_addItemList (items : List OrderItem) (pid : ℤ) (n : String)
    (pr : ℚ) (q : ℤ) :
    ((addItemList items pid n pr q).map OrderItem.quantity).sum =
      (items.map OrderItem.quantity).sum + q := by
  induction items with
  | nil => simp [addItemList]
  | cons it rest ih =>
    by_cases h : it.product_id = pid
    · simp [addItemList, h]
      ring
    · simp only [addItemList, if_neg h, List.map_cons, List.sum_cons, ih]
      ring

/-! ### Lemmas about `Database.update_stock` -/

theorem update_stock_orders (db : DBState) (pid q : ℤ) :
    (update_stock db pid q).2.orders = db.orders := rfl

theorem update_stock_order_items (db : DBState) (pid q : ℤ) :
    (update_stock db pid q).2.order_items = db.order_items := rfl

theorem update_stock_members (db : DBState) (pid q : ℤ) :
    (update_stock db pid q).2.members = db.members := rfl

/-- `find?` commutes with mapping a row transformation that cannot change the
truth of the predicate (e.g. an `UPDATE` that does not touch the key column). -/
theorem find?_map_of_pred_invariant {α : Type} (f : α → α) (p : α → Bool)
    (h : ∀ a, p (f a) = p a) (l : List α) :
    (l.map f).find? p = (l.find? p).map f := by
  induction l with
  | nil => rfl
  | cons a l ih =>
    by_cases hp : p a = true
    · rw [List.map_cons, List.find?_cons_of_pos _ ((h a).trans hp),
        List.find?_cons_of_pos _ hp]
      rfl
    · rw [List.map_cons, List.find?_cons_of_neg _ (by simp [h a, hp]),
        List.find?_cons_of_neg _ (by simpa using hp)]
      exact ih

theorem stockUpd_id (pid q : ℤ) (p : Product) : (stockUpd pid q p).id = p.id := by
  unfold stockUpd
  split <;> rfl

theorem memberUpd_member_id (mid : String) (t : ℚ) (m : Member) :
    (memberUpd mid t m).member_id = m.member_id := by
  unfold memberUpd
  split <;> rfl

/-- How one `update_stock` call changes the visible stock of any product id:
the targeted id is decremented exactly when its stock was at least the
quantity, every other id is untouched. -/
theorem stockOf_update_stock (db : DBState) (pid q x : ℤ) :
    stockOf (update_stock db pid q).2 x =
      if x = pid then
        (stockOf db pid).map (fun st => if q ≤ st then st - q else st)
      else stockOf db x := by
  unfold stockOf update_stock
  rw [find?_map_of_pred_invariant _ _ (fun a => by rw [stockUpd_id])]
  by_cases hx : x = pid
  · subst hx
    rcases hf : db.products.find? (fun p => decide (p.id = x)) with _ | a
    · simp [hf]
    · have ha : a.id = x := by simpa using List.find?_some hf
      by_cases hq : q ≤ a.stock
      · simp [hf, stockUpd, ha, hq]
      · simp [hf, stockUpd, ha, hq]
  · simp only [if_neg hx]
    rcases hf : db.products.find? (fun p => decide (p.id = x)) with _ | a
    · simp [hf]
    · have ha : a.id = x := by simpa using List.find?_some hf
      have hcond : ¬(a.id = pid ∧ q ≤ a.stock) := fun hc => hx (ha ▸ hc.1)
      simp [hf, stockUpd, hcond]

/-! ### Lemmas about `applyItems`, `apply_member_sale` and `commitOrder` -/

theorem stockOf_order_items_irrelevant (db : DBState) (rows : List OrderItemRow)
    (x : ℤ) : stockOf { db with order_items := rows } x = stockOf db x := rfl

theorem applyItems_nil (db : DBState) (oid : String) :
    applyItems db oid [] = db := rfl

theorem applyItems_cons (db : DBState) (oid : String) (it : OrderItem)
    (rest : List OrderItem) :
    applyItems db oid (it :: rest) =
      applyItems
        (update_stock
          { db with order_items := db.order_items ++
            [⟨oid, it.product_id, it.product_name, it.unit_price, it.quantity,
              it.discount⟩] }
          it.product_id it.quantity).2 oid rest := rfl

theorem applyItems_orders (items : List OrderItem) (db : DBState) (oid : String) :
    (applyItems db oid items).orders = db.orders := by
  induction items generalizing db with
  | nil => rfl
  | cons it rest ih => rw [applyItems_cons, ih]; rfl

theorem applyItems_members (items : List OrderItem) (db : DBState) (oid : String) :
    (applyItems db oid items).members = db.members := by
  induction items generalizing db with
  | nil => rfl
  | cons it rest ih => rw [applyItems_cons, ih]; rfl

/-- The per-item loop leaves product ids it never targets alone. -/
theorem stockOf_applyItems_untouched (items : List OrderItem) (db : DBState)
    (oid : String) (x : ℤ) (h : ∀ it ∈ items, it.product_id ≠ x) :
    stockOf (applyItems db oid items) x = stockOf db x := by
  induction items generalizing db with
  | nil => rfl
  | cons it rest ih =>
    rw [applyItems_cons, ih _ (fun i hi => h i (List.mem_cons_of_mem _ hi)),
      stockOf_update_stock, if_neg (fun hc => h it (List.mem_cons_self it rest) hc.symm)]
    rfl

/-- The per-item loop decrements the visible stock of each targeted product by
that line's quantity, provided the line quantities are covered by the current
stocks and no product id occurs on two lines. -/
theorem stockOf_applyItems (items : List OrderItem) (db : DBState) (oid : String)
    (hdis : (items.map OrderItem.product_id).Pairwise (· ≠ ·))
    (hcov : ∀ it ∈ items, ∃ st, stockOf db it.product_id = some st ∧ it.quantity ≤ st) :
    ∀ it ∈ items, stockOf (applyItems db oid items) it.product_id =
      (stockOf db it.product_id).map (fun st => st - it.quantity) := by
  induction items generalizing db with
  | nil => intro it h; cases h
  | cons it0 rest ih =>
    have hdis0 : (OrderItem.product_id it0 :: rest.map OrderItem.product_id).Pairwise
        (· ≠ ·) := by
      rw [← List.map_cons]; exact hdis
    rw [List.pairwise_cons] at hdis0
    obtain ⟨st0, hst0, hq0⟩ := hcov it0 (List.mem_cons_self it0 rest)
    intro it hit
    rw [applyItems_cons]
    rcases List.mem_cons.mp hit with h0 | hrest
    · subst h0
      rw [stockOf_applyItems_untouched _ _ _ _
          (fun i hi => fun hc => hdis0.1 i.product_id (List.mem_map_of_mem _ hi) hc.symm),
        stockOf_update_stock, if_pos rfl, stockOf_order_items_irrelevant, hst0]
      simp [hq0]
    · have hne : it.product_id ≠ it0.product_id := by
        intro hc
        exact hdis0.1 it.product_id (List.mem_map_of_mem _ hrest) hc.symm
      rw [ih _ hdis0.2]
      · rw [stockOf_update_stock, if_neg hne, stockOf_order_items_irrelevant]
      · intro i hi
        obtain ⟨st, hst, hq⟩ := hcov i (List.mem_cons_of_mem _ hi)
        have hnei : i.product_id ≠ it0.product_id := by
          intro hc
          exact hdis0.1 i.product_id (List.mem_map_of_mem _ hi) hc.symm
        refine ⟨st, ?_, hq⟩
        rw [stockOf_update_stock, if_neg hnei, stockOf_order_items_irrelevant, hst]
      · exact hrest

theorem apply_member_sale_orders (db : DBState) (mid : String) (t : ℚ) :
    (apply_member_sale db mid t).orders = db.orders := rfl

theorem apply_member_sale_products (db : DBState) (mid : String) (t : ℚ) :
    (apply_member_sale db mid t).products = db.products := rfl

/-- A member id resolving to no row makes the loyalty `UPDATE` a silent no-op. -/
theorem apply_member_sale_noop (db : DBState) (mid : String) (t : ℚ)
    (h : ∀ m ∈ db.members, m.member_id ≠ mid) :
    (apply_member_sale db mid t).members = db.members := by
  unfold apply_member_sale
  simp only
  rw [List.map_congr_left (fun m hm => by unfold memberUpd; rw [if_neg (h m hm)])]
  simp

/-- The loyalty `UPDATE` as seen through `get_member`. -/
theorem get_member_apply_member_sale (db : DBState) (mid : String) (t : ℚ) (x : String) :
    get_member (apply_member_sale db mid t) x =
      (get_member db x).map (memberUpd mid t) := by
  unfold get_member apply_member_sale
  exact find?_map_of_pred_invariant _ _ (fun a => by rw [memberUpd_member_id]) _

theorem commitOrder_orders (db : DBState) (o : Order) :
    (commitOrder db o).orders = db.orders ++
      [⟨o.order_id, o.member_id, o.payment_method, o.payment_status, o.total,
        o.created_at⟩] := by
  unfold commitOrder
  rcases o.member_id with _ | mid
  · simp [applyItems_orders]
  · by_cases h : mid = "" <;>
      simp [h, apply_member_sale_orders, applyItems_orders]

theorem commitOrder_stockOf (db : DBState) (o : Order)
    (hdis : (o.items.map OrderItem.product_id).Pairwise (· ≠ ·))
    (hcov : ∀ it ∈ o.items, ∃ st, stockOf db it.product_id = some st ∧
      it.quantity ≤ st) :
    ∀ it ∈ o.items, stockOf (commitOrder db o) it.product_id =
      (stockOf db it.product_id).map (fun st => st - it.quantity) := by
  intro it hit
  have step : ∀ rows : List OrderRow,
      stockOf (applyItems { db with orders := rows } o.order_id o.items)
          it.product_id =
        (stockOf db it.product_id).map (fun st => st - it.quantity) := fun rows =>
    stockOf_applyItems o.items { db with orders := rows } o.order_id hdis
      (fun i hi => hcov i hi) it hit
  unfold commitOrder
  rcases hm : o.member_id with _ | mid
  · exact step _
  · by_cases h : mid = ""
    · simp only [h, ne_eq, not_true_eq_false, if_false, ite_false]
      exact step _
    · simp only [ne_eq, h, not_false_eq_true, if_true, ite_true]
      exact step _

theorem commitOrder_members_no_member (db : DBState) (o : Order)
    (h : o.member_id = none) : (commitOrder db o).members = db.members := by
  unfold commitOrder
  rw [h]
  simp [applyItems_members]

/-- `save_order` on a fresh order id takes the committing branch. -/
theorem save_order_fresh (db : DBState) (o : Order)
    (h : ∀ r ∈ db.orders, r.order_id ≠ o.order_id) :
    save_order db o = (true, commitOrder db o) := by
  unfold save_order
  rw [if_neg]
  rw [List.any_eq_true]
  rintro ⟨r, hr, hrid⟩
  exact h r hr (by simpa using hrid)

/-- `save_order` on an already-committed order id fails without touching the
state. -/
theorem save_order_dup (db : DBState) (o : Order)
    (h : ∃ r ∈ db.orders, r.order_id = o.order_id) :
    save_order db o = (false, db) := by
  unfold save_order
  rw [if_pos]
  rw [List.any_eq_true]
  obtain ⟨r, hr, hrid⟩ := h
  exact ⟨r, hr, by simpa using hrid⟩

/-! ### Claim C2 -/

/-- C2: with a current Order and `amount < total`, `process_payment` fails with
the insufficient-payment message reporting the shortfall `total - amount`, and
the whole system state — the Order (items and `Pending` status included) and
its being current — is exactly as before the call. -/
theorem process_payment_insufficient_spec (s : POSState) (o : Order) (m : String)
    (amt : ℚ) (ho : s.current_order = some o) (hlt : amt < o.total) :
    process_payment s m amt =
      ((false, PayMsg.insufficientAmount (o.total - amt), 0), s) := by
  unfold process_payment
  rw [ho]
  simp [hlt]

def w2o : Order :=
  ⟨"ORD20250101100000", [⟨1, "Coca Cola 330ml", 3, 1, 0⟩], none, "Cash", "Pending",
    "2025-01-01 10:00:00"⟩

def w2s : POSState := ⟨⟨[], [], [], []⟩, some w2o⟩

/-- Witness for C2: paying 2 against a 3.00 order fails with shortfall 1.00 and
leaves the state untouched. -/
theorem process_payment_insufficient_spec_witness :
    process_payment w2s "Cash" 2 =
      ((false, PayMsg.insufficientAmount (w2o.total - 2), 0), w2s) ∧
    w2o.total - 2 = 1 := by
  constructor
  · exact process_payment_insufficient_spec w2s w2o "Cash" 2 rfl
      (by norm_num [w2o, Order.total, OrderItem.subtotal])
  · norm_num [w2o, Order.total, OrderItem.subtotal]

/-! ### Claim C3 -/

/-- C3: `update_stock` (1) returns `true` only when some `products` row with
the requested id has stock at least the requested quantity; (2) when every row
with that id fails the constraint — in particular when the id is unknown — it
returns `false` and leaves the database unchanged (no exception is modelled:
the source catches everything); (3) it never writes a negative stock: every
row after the call is either an untouched old row or has stock `≥ 0`. The
check and decrement are one conditional `UPDATE`, which the model reflects by
making them a single state transition. -/
theorem update_stock_spec (db : DBState) (pid q : ℤ) :
    ((update_stock db pid q).1 = true →
      ∃ p ∈ db.products, p.id = pid ∧ q ≤ p.stock)
    ∧ ((∀ p ∈ db.products, p.id = pid → p.stock < q) →
        update_stock db pid q = (false, db))
    ∧ (∀ p' ∈ (update_stock db pid q).2.products, p' ∈ db.products ∨ 0 ≤ p'.stock) := by
  refine ⟨?_, ?_, ?_⟩
  · intro h
    obtain ⟨p, hp, hcond⟩ := List.any_eq_true.mp h
    exact ⟨p, hp, by simpa using hcond⟩
  · intro h
    have h1 : db.products.any (fun p => decide (p.id = pid ∧ q ≤ p.stock)) = false := by
      rw [List.any_eq_false]
      intro p hp
      simp only [decide_eq_true_eq, not_and, not_le]
      exact h p hp
    have h2 : db.products.map (stockUpd pid q) = db.products := by
      rw [List.map_congr_left (fun p hp => by
        unfold stockUpd
        rw [if_neg (by
          rintro ⟨hid, hq⟩
          exact absurd (h p hp hid) (not_lt.mpr hq))])]
      simp
    simp [update_stock, h1, h2]
    exact h
  · intro p' hp'
    obtain ⟨p, hp, hmap⟩ := List.mem_map.mp hp'
    unfold stockUpd at hmap
    by_cases hcond : p.id = pid ∧ q ≤ p.stock
    · right
      rw [if_pos hcond] at hmap
      rw [← hmap]
      simpa using hcond.2
    · left
      rw [if_neg hcond] at hmap
      rw [← hmap]
      exact hp

def w3db : DBState :=
  ⟨[⟨1, "Coca Cola 330ml", 3, "Drinks", "6901234567890", 100, 10, true⟩,
    ⟨2, "Noodles Beef Flavor", 9/2, "Food", "6923456789012", 50, 20, true⟩],
   [], [], []⟩

/-- Witness for C3: an unknown id is a no-op returning `false`, and after a
successful decrement every row's stock is still non-negative. -/
theorem update_stock_spec_witness :
    update_stock w3db 99 1 = (false, w3db) ∧
    (update_stock w3db 1 5).2.products.all (fun p => decide (0 ≤ p.stock)) = true := by
  constructor
  · exact (update_stock_spec w3db 99 1).2.1 (by decide)
  · rw [List.all_eq_true]
    intro p hp
    rcases (update_stock_spec w3db 1 5).2.2 p hp with h | h
    · have : p = w3db.products[0] ∨ p = w3db.products[1] := by
        simpa [w3db] using h
      rcases this with h' | h' <;> (subst h'; decide)
    · simpa using h

/-! ### Claim C5 -/

/-- C5: when the ledger commit inside `process_payment` fails (`save_order`
returns `false`, here because the order id is already committed), the call
returns a failure, the database is untouched, and the Order stays current with
`payment_status` left as `"Paid"` — the status set during the attempt — rather
than being restored to `Pending`/Open, so the caller must retry settlement. -/
theorem process_payment_save_failure_spec (s : POSState) (o : Order) (m : String)
    (amt : ℚ) (ho : s.current_order = some o) (hge : o.total ≤ amt)
    (hdup : ∃ r ∈ s.db.orders, r.order_id = o.order_id) :
    process_payment s m amt =
      ((false, PayMsg.saveFailed, 0),
        ⟨s.db, some { o with payment_method := m, payment_status := "Paid" }⟩) := by
  unfold process_payment
  rw [ho]
  have hsave := save_order_dup s.db
    { o with payment_method := m, payment_status := "Paid" } hdup
  simp [not_lt.mpr hge, hsave]

def w5o : Order :=
  ⟨"ORD1", [⟨1, "Coca Cola 330ml", 3, 2, 0⟩], none, "Cash", "Pending",
    "2025-01-01 10:00:00"⟩

def w5s : POSState :=
  ⟨⟨[⟨1, "Coca Cola 330ml", 3, "Drinks", "6901234567890", 100, 10, true⟩],
    [⟨"ORD1", none, "Cash", "Paid", 6, "2025-01-01 09:00:00"⟩], [], []⟩, some w5o⟩

/-- Witness for C5: a duplicate ledger id makes the payment fail and leaves the
order current with status `"Paid"`. -/
theorem process_payment_save_failure_spec_witness :
    process_payment w5s "Cash" 6 =
      ((false, PayMsg.saveFailed, 0),
        ⟨w5s.db,
          some ⟨"ORD1", [⟨1, "Coca Cola 330ml", 3, 2, 0⟩], none, "Cash", "Paid",
            "2025-01-01 10:00:00"⟩⟩) :=
  process_payment_save_failure_spec w5s w5o "Cash" 6 rfl
    (by norm_num [w5o, Order.total, OrderItem.subtotal])
    ⟨⟨"ORD1", none, "Cash", "Paid", 6, "2025-01-01 09:00:00"⟩, by simp [w5s], rfl⟩

/-! ### Claim C6 -/

/-- C6: once `save_order` has committed an order, saving any order carrying the
same order id again fails (primary-key uniqueness) and leaves the ledger — and
the entire database — exactly as it was, neither double-recording nor
overwriting. -/
theorem save_order_duplicate_fails (db : DBState) (o o2 : Order)
    (h1 : (save_order db o).1 = true) (h2 : o2.order_id = o.order_id) :
    save_order (save_order db o).2 o2 = (false, (save_order db o).2) := by
  have hcase : save_order db o = (true, commitOrder db o) := by
    unfold save_order at h1 ⊢
    cases hany : db.orders.any (fun r => decide (r.order_id = o.order_id)) with
    | true => rw [hany] at h1; simp at h1
    | false => simp
  rw [hcase]
  apply save_order_dup
  refine ⟨⟨o.order_id, o.member_id, o.payment_method, o.payment_status, o.total,
    o.created_at⟩, ?_, h2.symm⟩
  rw [commitOrder_orders]
  exact List.mem_append_right _ (List.mem_singleton_self _)

def w6db : DBState :=
  ⟨[⟨1, "Coca Cola 330ml", 3, "Drinks", "6901234567890", 100, 10, true⟩], [], [], []⟩

def w6o : Order :=
  ⟨"ORD1", [⟨1, "Coca Cola 330ml", 3, 1, 0⟩], none, "Cash", "Paid",
    "2025-01-01 10:00:00"⟩

/-- Witness for C6: the second save of order id `"ORD1"` fails and changes
nothing. -/
theorem save_order_duplicate_fails_witness :
    save_order (save_order w6db w6o).2 w6o = (false, (save_order w6db w6o).2) :=
  save_order_duplicate_fails w6db w6o w6o rfl rfl

/-! ### Claim C9 -/

/-- C9: `get_daily_sales` on a date on which no committed order's
`DATE(created_at)` falls returns the all-zero summary (count 0, total 0,
average 0) instead of failing on the empty aggregate. -/
theorem get_daily_sales_empty_spec (db : DBState) (date : String)
    (h : ∀ r ∈ db.orders, dateOf r.created_at ≠ date) :
    get_daily_sales db date = ⟨0, 0, 0⟩ := by
  unfold get_daily_sales
  have hnil : db.orders.filter (fun r => decide (dateOf r.created_at = date)) = [] :=
    List.filter_eq_nil_iff.mpr (fun r hr => by simpa using h r hr)
  simp [hnil]

def w9db : DBState :=
  ⟨[], [⟨"ORD1", none, "Cash", "Paid", 6, "2025-01-01 09:00:00"⟩], [], []⟩

/-- Witness for C9: a ledger holding only a 2025-01-01 order yields the
all-zero summary for 2025-01-02. -/
theorem get_daily_sales_empty_spec_witness :
    get_daily_sales w9db "2025-01-02" = ⟨0, 0, 0⟩ :=
  get_daily_sales_empty_spec w9db "2025-01-02" (by decide)

/-! ### Lemmas about `scan_product` -/

/-- A product found by `get_product` carries the id it was looked up by, and is
active. -/
theorem get_product_found (db : DBState) (pid : ℤ) (p : Product)
    (hp : get_product db pid = some p) : p.id = pid ∧ p.active = true := by
  have h := List.find?_some hp
  simpa using h

/-- A successful scan: current order, product found, stock covers quantity. -/
theorem scan_product_step (s : POSState) (o : Order) (p : Product) (pid q : ℤ)
    (ho : s.current_order = some o) (hp : get_product s.db pid = some p)
    (hq : q ≤ p.stock) :
    scan_product s pid q = ((true, ScanMsg.added p.name q),
      { s with current_order := some (o.add_item p.id p.name p.price q) }) := by
  unfold scan_product
  rw [ho]
  simp only
  rw [hp]
  simp [not_lt.mpr hq]

theorem scanSeq_nil (s : POSState) (pid : ℤ) : scanSeq s pid [] = (true, s) := rfl

theorem scanSeq_cons (s : POSState) (pid q : ℤ) (qs : List ℤ) :
    scanSeq s pid (q :: qs) =
      ((scan_product s pid q).1.1 && (scanSeq (scan_product s pid q).2 pid qs).1,
        (scanSeq (scan_product s pid q).2 pid qs).2) := rfl

theorem linesFor_zero_qtyFor (items : List OrderItem) (pid : ℤ)
    (h : linesFor items pid = 0) : qtyFor items pid = 0 := by
  unfold linesFor at h
  unfold qtyFor
  rw [List.length_eq_zero.mp h]
  rfl

/-- Invariant step for C4: once an order holds exactly one line for a product,
a further run of successful scans keeps exactly one line and adds the scanned
quantities to it. -/
theorem scanSeq_one_line (qs : List ℤ) :
    ∀ (s : POSState) (o : Order) (p : Product) (pid : ℤ),
      s.current_order = some o →
      get_product s.db pid = some p →
      (∀ q ∈ qs, q ≤ p.stock) →
      linesFor o.items pid = 1 →
      (scanSeq s pid qs).1 = true ∧
        ∃ o', (scanSeq s pid qs).2.current_order = some o' ∧
          linesFor o'.items pid = 1 ∧
          qtyFor o'.items pid = qtyFor o.items pid + qs.sum := by
  induction qs with
  | nil =>
    intro s o p pid ho hp hq hl
    exact ⟨rfl, o, ho, hl, by simp⟩
  | cons q qs ih =>
    intro s o p pid ho hp hq hl
    have hid := (get_product_found s.db pid p hp).1
    have hstep := scan_product_step s o p pid q ho hp (hq q (List.mem_cons_self q qs))
    have hl' : linesFor (o.add_item p.id p.name p.price q).items pid = 1 := by
      rw [Order.add_item, hid]
      show linesFor (addItemList o.items pid p.name p.price q) pid = 1
      rw [linesFor_addItemList, hl]
      simp
    have hqty' : qtyFor (o.add_item p.id p.name p.price q).items pid =
        qtyFor o.items pid + q := by
      rw [Order.add_item, hid]
      exact qtyFor_addItemList o.items pid p.name p.price q
    obtain ⟨hok, o', ho', hl'', hq''⟩ :=
      ih { s with current_order := some (o.add_item p.id p.name p.price q) }
        (o.add_item p.id p.name p.price q) p pid rfl hp
        (fun x hx => hq x (List.mem_cons_of_mem _ hx)) hl'
    rw [scanSeq_cons, hstep]
    refine ⟨by simpa using hok, o', ho', hl'', ?_⟩
    rw [hq'', hqty', List.sum_cons]
    ring

/-! ### Claim C4 -/

/-- C4: starting from an order holding no line for a product, every non-empty
run of successful `scan_product` calls for that product leaves exactly one
order line for it, whose quantity is the sum of the scanned quantities —
repeated scans merge rather than duplicate. -/
theorem scan_merge_invariant (s : POSState) (o : Order) (p : Product) (pid : ℤ)
    (qs : List ℤ) (ho : s.current_order = some o)
    (hp : get_product s.db pid = some p)
    (hq : ∀ q ∈ qs, q ≤ p.stock)
    (h0 : linesFor o.items pid = 0) (hne : qs ≠ []) :
    (scanSeq s pid qs).1 = true ∧
      ∃ o', (scanSeq s pid qs).2.current_order = some o' ∧
        linesFor o'.items pid = 1 ∧ qtyFor o'.items pid = qs.sum := by
  cases qs with
  | nil => exact absurd rfl hne
  | cons q qs =>
    have hid := (get_product_found s.db pid p hp).1
    have hstep := scan_product_step s o p pid q ho hp (hq q (List.mem_cons_self q qs))
    have hl' : linesFor (o.add_item p.id p.name p.price q).items pid = 1 := by
      rw [Order.add_item, hid]
      show linesFor (addItemList o.items pid p.name p.price q) pid = 1
      rw [linesFor_addItemList, h0]
      simp
    have hqty' : qtyFor (o.add_item p.id p.name p.price q).items pid = q := by
      rw [Order.add_item, hid]
      show qtyFor (addItemList o.items pid p.name p.price q) pid = q
      rw [qtyFor_addItemList, linesFor_zero_qtyFor o.items pid h0, zero_add]
    obtain ⟨hok, o', ho', hl'', hq''⟩ :=
      scanSeq_one_line qs { s with current_order := some (o.add_item p.id p.name p.price q) }
        (o.add_item p.id p.name p.price q) p pid rfl hp
        (fun x hx => hq x (List.mem_cons_of_mem _ hx)) hl'
    rw [scanSeq_cons, hstep]
    refine ⟨by simpa using hok, o', ho', hl'', ?_⟩
    rw [hq'', hqty', List.sum_cons]

def w4s : POSState :=
  ⟨⟨[⟨1, "Coca Cola 330ml", 3, "Drinks", "6901234567890", 100, 10, true⟩],
    [], [], []⟩,
   some ⟨"ORD1", [], none, "Cash", "Pending", "2025-01-01 10:00:00"⟩⟩

/-- Witness for C4: scanning product 1 with quantities 2 then 3 succeeds, and
the resulting order is checked concretely to hold one merged line of
quantity 5. -/
theorem scan_merge_invariant_witness :
    (scanSeq w4s 1 [2, 3]).1 = true ∧
    (scanSeq w4s 1 [2, 3]).2.current_order =
      some ⟨"ORD1", [⟨1, "Coca Cola 330ml", 3, 5, 0⟩], none, "Cash", "Pending",
        "2025-01-01 10:00:00"⟩ := by
  refine ⟨(scan_merge_invariant w4s
    ⟨"ORD1", [], none, "Cash", "Pending", "2025-01-01 10:00:00"⟩
    ⟨1, "Coca Cola 330ml", 3, "Drinks", "6901234567890", 100, 10, true⟩
    1 [2, 3] rfl rfl (by decide) (by decide) (by decide)).1, ?_⟩
  decide

/-! ### Claim C10 -/

/-- C10: `scan_product` enforces no `quantity ≥ 1` precondition: any quantity
at most the product's stock — zero and negative quantities included — is
accepted, and `add_item` applies it to the order, changing the item count by
`q` and the total by the merged line's unit price times `q`; a negative
quantity therefore lowers the order total. -/
theorem scan_accepts_nonpositive_quantity (s : POSState) (o : Order)
    (p : Product) (pid q : ℤ) (ho : s.current_order = some o)
    (hp : get_product s.db pid = some p) (hq : q ≤ p.stock) :
    scan_product s pid q = ((true, ScanMsg.added p.name q),
      { s with current_order := some (o.add_item p.id p.name p.price q) }) ∧
    (o.add_item p.id p.name p.price q).item_count = o.item_count + q ∧
    (o.add_item p.id p.name p.price q).total =
      o.total + linePrice o.items p.id p.price * q := by
  refine ⟨scan_product_step s o p pid q ho hp hq, ?_, ?_⟩
  · rw [Order.add_item]
    show ((addItemList o.items p.id p.name p.price q).map OrderItem.quantity).sum = _
    rw [quantity_sum_addItemList]
    rfl
  · rw [Order.add_item]
    show ((addItemList o.items p.id p.name p.price q).map OrderItem.subtotal).sum = _
    rw [subtotal_sum_addItemList]
    rfl

def w10s : POSState :=
  ⟨⟨[⟨1, "Coca Cola 330ml", 3, "Drinks", "6901234567890", 100, 10, true⟩],
    [], [], []⟩,
   some ⟨"ORD1", [⟨1, "Coca Cola 330ml", 3, 2, 0⟩], none, "Cash", "Pending",
     "2025-01-01 10:00:00"⟩⟩

def w10o : Order :=
  ⟨"ORD1", [⟨1, "Coca Cola 330ml", 3, 2, 0⟩], none, "Cash", "Pending",
    "2025-01-01 10:00:00"⟩

/-- Witness for C10: scanning quantity −1 succeeds and drops the order total
from 6.00 to 3.00. -/
theorem scan_accepts_nonpositive_quantity_witness :
    scan_product w10s 1 (-1) = ((true, ScanMsg.added "Coca Cola 330ml" (-1)),
      ⟨w10s.db, some (w10o.add_item 1 "Coca Cola 330ml" 3 (-1))⟩) ∧
    (w10o.add_item 1 "Coca Cola 330ml" 3 (-1)).total = 3 ∧ w10o.total = 6 := by
  have h := scan_accepts_nonpositive_quantity w10s w10o
    ⟨1, "Coca Cola 330ml", 3, "Drinks", "6901234567890", 100, 10, true⟩
    1 (-1) rfl rfl (by decide)
  refine ⟨h.1, ?_, ?_⟩
  · norm_num [w10o, Order.add_item, Order.total, addItemList, OrderItem.subtotal]
  · norm_num [w10o, Order.total, OrderItem.subtotal]

/-! ### Claim C1 -/

/-- C1 (amended): with a current Order whose id is not yet in the ledger,
`process_payment` with `amount ≥ total` succeeds with
`change = amount - total ≥ 0`, clears the current order, appends exactly one
`orders` row — whose `total_amount` is the order's total at payment time — and
decrements the stock of each order line by that line's quantity *provided*
that line's quantity is at most the product's current stock (the source
discards `update_stock`'s result, so a line exceeding the available stock is
silently skipped; see the counterexample). Line product ids are assumed
pairwise distinct, which scanning guarantees (C4). -/
theorem process_payment_success_spec (s : POSState) (o : Order) (m : String)
    (amt : ℚ) (ho : s.current_order = some o) (hamt : o.total ≤ amt)
    (hfresh : ∀ r ∈ s.db.orders, r.order_id ≠ o.order_id)
    (hdis : (o.items.map OrderItem.product_id).Pairwise (· ≠ ·))
    (hcov : ∀ it ∈ o.items, ∃ st, stockOf s.db it.product_id = some st ∧
      it.quantity ≤ st) :
    process_payment s m amt =
      ((true, PayMsg.paid, amt - o.total),
        ⟨commitOrder s.db { o with payment_method := m, payment_status := "Paid" },
          none⟩) ∧
    0 ≤ amt - o.total ∧
    (process_payment s m amt).2.current_order = none ∧
    (process_payment s m amt).2.db.orders =
      s.db.orders ++ [⟨o.order_id, o.member_id, m, "Paid", o.total, o.created_at⟩] ∧
    ((process_payment s m amt).2.db.orders.filter
        (fun r => decide (r.order_id = o.order_id))).map OrderRow.total_amount =
      [o.total] ∧
    (∀ it ∈ o.items, stockOf (process_payment s m amt).2.db it.product_id =
      (stockOf s.db it.product_id).map (fun st => st - it.quantity)) := by
  have hsave : save_order s.db { o with payment_method := m, payment_status := "Paid" } =
      (true, commitOrder s.db { o with payment_method := m, payment_status := "Paid" }) :=
    save_order_fresh s.db _ hfresh
  have hpp : process_payment s m amt =
      ((true, PayMsg.paid, amt - o.total),
        ⟨commitOrder s.db { o with payment_method := m, payment_status := "Paid" },
          none⟩) := by
    unfold process_payment
    rw [ho]
    simp [not_lt.mpr hamt, hsave]
    rfl
  have horders : (commitOrder s.db
      { o with payment_method := m, payment_status := "Paid" }).orders =
      s.db.orders ++ [⟨o.order_id, o.member_id, m, "Paid", o.total, o.created_at⟩] :=
    commitOrder_orders s.db _
  refine ⟨hpp, by linarith, by rw [hpp], ?_, ?_, ?_⟩
  · rw [hpp]
    exact horders
  · rw [hpp]
    show ((commitOrder s.db _).orders.filter _).map OrderRow.total_amount = _
    rw [horders, List.filter_append]
    have hold : s.db.orders.filter (fun r => decide (r.order_id = o.order_id)) = [] :=
      List.filter_eq_nil_iff.mpr (fun r hr => by simpa using hfresh r hr)
    rw [hold]
    simp
  · intro it hit
    rw [hpp]
    exact commitOrder_stockOf s.db
      { o with payment_method := m, payment_status := "Paid" } hdis hcov it hit

def w1o : Order :=
  ⟨"ORD1", [⟨1, "Coca Cola 330ml", 3, 2, 0⟩, ⟨2, "Noodles Beef Flavor", 9/2, 1, 0⟩],
    none, "Cash", "Pending", "2025-01-01 10:00:00"⟩

def w1s : POSState :=
  ⟨⟨[⟨1, "Coca Cola 330ml", 3, "Drinks", "6901234567890", 100, 10, true⟩,
     ⟨2, "Noodles Beef Flavor", 9/2, "Food", "6923456789012", 50, 20, true⟩],
    [], [], []⟩, some w1o⟩

/-- Witness for C1 (the spec's round-trip example): items
(pid 1, 3.00 × 2) and (pid 2, 4.50 × 1) total 10.50; paying 11 succeeds with
change 0.50, clears the order, and stock drops 100 → 98 and 50 → 49. -/
theorem process_payment_success_spec_witness :
    (process_payment w1s "Cash" 11).1 = (true, PayMsg.paid, 11 - w1o.total) ∧
    w1o.total = 21/2 ∧
    (process_payment w1s "Cash" 11).2.current_order = none ∧
    stockOf (process_payment w1s "Cash" 11).2.db 1 =
      (stockOf w1s.db 1).map (fun st => st - 2) ∧
    stockOf (process_payment w1s "Cash" 11).2.db 2 =
      (stockOf w1s.db 2).map (fun st => st - 1) ∧
    stockOf w1s.db 1 = some 100 ∧ stockOf w1s.db 2 = some 50 := by
  have h := process_payment_success_spec w1s w1o "Cash" 11 rfl
    (by norm_num [w1o, Order.total, OrderItem.subtotal])
    (by decide) (by decide)
    (by
      intro it hit
      have hcases : it = (⟨1, "Coca Cola 330ml", 3, 2, 0⟩ : OrderItem) ∨
          it = (⟨2, "Noodles Beef Flavor", 9/2, 1, 0⟩ : OrderItem) := by
        simpa [w1o] using hit
      rcases hcases with h' | h' <;> subst h'
      · exact ⟨100, rfl, by decide⟩
      · exact ⟨50, rfl, by decide⟩)
  obtain ⟨hpp, -, hclear, -, -, hstock⟩ := h
  refine ⟨by rw [hpp], by norm_num [w1o, Order.total, OrderItem.subtotal], hclear,
    ?_, ?_, rfl, rfl⟩
  · exact hstock ⟨1, "Coca Cola 330ml", 3, 2, 0⟩ (by simp [w1o])
  · exact hstock ⟨2, "Noodles Beef Flavor", 9/2, 1, 0⟩ (by simp [w1o])

/-- Counterexample for C1 as stated: product 1 has stock 1 but the current
order's (merged) line asks for quantity 2 — reachable by scanning quantity 1
twice, each scan checking the still-undecremented stock. The payment
nevertheless succeeds, yet the stock is *not* decremented by the line's
quantity: it stays 1 instead of becoming −1 (and `update_stock`'s `false` is
discarded), contradicting the unconditional "decrements the catalog stock of
each scanned product by that line's quantity". -/
theorem process_payment_stock_not_decremented_cex :
    (process_payment
        ⟨⟨[⟨1, "Coca Cola 330ml", 3, "Drinks", "6901234567890", 1, 5, true⟩],
          [], [], []⟩,
         some ⟨"ORD1", [⟨1, "Coca Cola 330ml", 3, 2, 0⟩], none, "Cash", "Pending",
           "2025-01-01 10:00:00"⟩⟩
        "Cash" 6).1.1 = true ∧
    stockOf (process_payment
        ⟨⟨[⟨1, "Coca Cola 330ml", 3, "Drinks", "6901234567890", 1, 5, true⟩],
          [], [], []⟩,
         some ⟨"ORD1", [⟨1, "Coca Cola 330ml", 3, 2, 0⟩], none, "Cash", "Pending",
           "2025-01-01 10:00:00"⟩⟩
        "Cash" 6).2.db 1 = some 1 ∧
    some (1 : ℤ) ≠ some ((1 : ℤ) - 2) := by
  refine ⟨?_, ?_, by decide⟩ <;>
    norm_num [process_payment, Order.total, OrderItem.subtotal, save_order,
      commitOrder, applyItems, update_stock, stockUpd, stockOf]

/-! ### Lemmas about the member update inside `commitOrder` -/

theorem get_member_eq_of_members (d d' : DBState) (x : String)
    (h : d.members = d'.members) : get_member d x = get_member d' x := by
  unfold get_member
  rw [h]

/-- With a truthy member id, the commit runs the loyalty `UPDATE` on the
members table (which the rest of the commit leaves untouched). -/
theorem commitOrder_get_member (db : DBState) (o : Order) (mid : String)
    (hmid : o.member_id = some mid) (hne : mid ≠ "") (x : String) :
    get_member (commitOrder db o) x = (get_member db x).map (memberUpd mid o.total) := by
  unfold commitOrder
  rw [hmid]
  simp only [ne_eq, hne, not_false_eq_true, if_true, ite_true]
  rw [get_member_apply_member_sale]
  congr 1
  apply get_member_eq_of_members
  rw [applyItems_members]

/-- With a truthy member id resolving to no row, the commit leaves the members
table unchanged. -/
theorem commitOrder_members_noop (db : DBState) (o : Order) (mid : String)
    (hmid : o.member_id = some mid) (hne : mid ≠ "")
    (h : ∀ m ∈ db.members, m.member_id ≠ mid) :
    (commitOrder db o).members = db.members := by
  unfold commitOrder
  rw [hmid]
  simp only [ne_eq, hne, not_false_eq_true, if_true, ite_true]
  have hX : (applyItems
      { db with orders := db.orders ++
        [⟨o.order_id, some mid, o.payment_method, o.payment_status, o.total,
          o.created_at⟩] } o.order_id o.items).members = db.members :=
    applyItems_members _ _ _
  rw [apply_member_sale_noop _ _ _ (by rw [hX]; exact h), hX]

/-! ### Claim C7 -/

/-- C7 (amended): committing an order whose (truthy) member id resolves adds
the order's total to the member's `total_spent` and adds
`CAST(total * 10 AS INTEGER)` — truncation toward zero, which coincides with
`⌊total * 10⌋` whenever the total is non-negative but not for the negative
totals reachable through negative-quantity scans (see the counterexample) —
to the member's points; a member id resolving to no row leaves the members
table untouched and does not fail the save. -/
theorem save_order_member_accrual (db : DBState) (o : Order) (mid : String)
    (hmid : o.member_id = some mid) (hne : mid ≠ "")
    (hfresh : ∀ r ∈ db.orders, r.order_id ≠ o.order_id) :
    (save_order db o).1 = true ∧
    ((∀ m ∈ db.members, m.member_id ≠ mid) →
      (save_order db o).2.members = db.members) ∧
    (∀ mm, get_member db mid = some mm →
      get_member (save_order db o).2 mid =
        some { mm with
          total_spent := mm.total_spent + o.total,
          points := mm.points + ratCastInt (o.total * 10) }) ∧
    (0 ≤ o.total → ratCastInt (o.total * 10) = ⌊o.total * 10⌋) := by
  have hsave := save_order_fresh db o hfresh
  refine ⟨by rw [hsave], ?_, ?_, ?_⟩
  · intro h
    rw [hsave]
    exact commitOrder_members_noop db o mid hmid hne h
  · intro mm hmm
    rw [hsave]
    show get_member (commitOrder db o) mid = _
    rw [commitOrder_get_member db o mid hmid hne, hmm]
    have hmmid : mm.member_id = mid := by simpa using List.find?_some hmm
    simp [memberUpd, hmmid]
  · intro h
    unfold ratCastInt
    rw [if_pos (mul_nonneg h (by norm_num))]

def w7db : DBState :=
  ⟨[⟨1, "Coca Cola 330ml", 3, "Drinks", "6901234567890", 100, 10, true⟩],
   [], [], [⟨"M001", "John Doe", "13800138000", 500, 8500⟩]⟩

def w7o : Order :=
  ⟨"ORD1", [⟨1, "Coca Cola 330ml", 3, 3, 0⟩], some "M001", "Cash", "Paid",
    "2025-01-01 10:00:00"⟩

/-- Witness for C7 (the spec's scenario): a 9.00 sale for member M001 adds
9.00 to `total_spent` and `ratCastInt (9 * 10) = 90` points. -/
theorem save_order_member_accrual_witness :
    (save_order w7db w7o).1 = true ∧
    get_member (save_order w7db w7o).2 "M001" =
      some ⟨"M001", "John Doe", "13800138000",
        500 + ratCastInt (w7o.total * 10), 8500 + w7o.total⟩ ∧
    w7o.total = 9 ∧ ratCastInt (w7o.total * 10) = 90 := by
  have h := save_order_member_accrual w7db w7o "M001" rfl (by decide)
    (by simp [w7db])
  have htot : w7o.total = 9 := by norm_num [w7o, Order.total, OrderItem.subtotal]
  refine ⟨h.1, ?_, htot, ?_⟩
  · exact h.2.2.1 ⟨"M001", "John Doe", "13800138000", 500, 8500⟩ rfl
  · rw [htot]
    norm_num [ratCastInt]

def c7o : Order :=
  ⟨"ORD2", [⟨1, "Gum", 1/4, -1, 0⟩], some "M001", "Cash", "Pending",
    "2025-01-02 10:00:00"⟩

def c7db : DBState :=
  ⟨[⟨1, "Gum", 1/4, "Snack", "", 10, 5, true⟩], [], [],
   [⟨"M001", "John Doe", "13800138000", 0, 0⟩]⟩

def c7s : POSState := ⟨c7db, some c7o⟩

/-- Counterexample for C7 as stated: settle an order for member M001 whose
only line is quantity −1 of a 0.25 product, so the total is −0.25 (payment of
0 ≥ −0.25 is accepted, and the negative quantity is accepted per C10). The
code adds `CAST(-2.5 AS INTEGER) = -2` points, while the claim's
`floor(total × 10) = ⌊-2.5⌋ = -3`: the member ends at −2 points, not −3. -/
theorem member_points_truncation_cex :
    (process_payment c7s "Cash" 0).1.1 = true ∧
    get_member (process_payment c7s "Cash" 0).2.db "M001" =
      some ⟨"M001", "John Doe", "13800138000", -2, 0 + -(1/4)⟩ ∧
    (0 : ℤ) + ⌊(-(1/4) : ℚ) * 10⌋ = -3 ∧ (-2 : ℤ) ≠ -3 := by
  have htot : c7o.total = -(1/4) := by
    norm_num [c7o, Order.total, OrderItem.subtotal]
  have hsave : save_order c7db
      { c7o with payment_method := "Cash", payment_status := "Paid" } =
      (true, commitOrder c7db
        { c7o with payment_method := "Cash", payment_status := "Paid" }) :=
    save_order_fresh _ _ (by simp [c7db])
  have hpay : process_payment c7s "Cash" 0 =
      ((true, PayMsg.paid, 0 - c7o.total),
        ⟨commitOrder c7db
          { c7o with payment_method := "Cash", payment_status := "Paid" },
          none⟩) := by
    unfold process_payment c7s
    simp only
    rw [if_neg (not_lt.mpr (by rw [htot]; norm_num))]
    simp [hsave]
    rfl
  refine ⟨by rw [hpay], ?_, ?_, by decide⟩
  · rw [hpay]
    show get_member (commitOrder c7db _) "M001" = _
    rw [commitOrder_get_member c7db _ "M001" rfl (by decide)]
    have hget : get_member c7db "M001" =
        some ⟨"M001", "John Doe", "13800138000", 0, 0⟩ := rfl
    rw [hget]
    have htot' : Order.total
        { c7o with payment_method := "Cash", payment_status := "Paid" } =
        -(1/4) := htot
    simp only [Option.map_some, htot']
    show some (memberUpd "M001" (-(1/4)) ⟨"M001", "John Doe", "13800138000", 0, 0⟩) = _
    unfold memberUpd
    rw [if_pos rfl]
    have hcast : ratCastInt (-(1/4) * 10) = -2 := by
      norm_num [ratCastInt, Int.ceil_eq_iff]
    rw [hcast]
    norm_num
  · have hfl : (⌊(-(1/4) : ℚ) * 10⌋ : ℤ) = -3 := by
      rw [show (-(1/4) : ℚ) * 10 = -3 + 1/2 by norm_num]
      rw [Int.floor_eq_iff]
      constructor <;> norm_num
    rw [hfl]
    norm_num

/-! ### Lemmas about `LIKE` and substring matching -/

theorem likeMatch_percent (ps : List Char) (s : List Char) :
    likeMatch ('%' :: ps) s = s.tails.any (fun t => likeMatch ps t) := rfl

theorem likeMatch_cons_nil (a : Char) (ps : List Char) (ha : a ≠ '%') :
    likeMatch (a :: ps) [] = false := by
  simp only [likeMatch]
  rw [if_neg ha]

theorem likeMatch_cons_cons (a : Char) (ps : List Char) (c : Char) (t : List Char)
    (ha : a ≠ '%') :
    likeMatch (a :: ps) (c :: t) =
      ((decide (a = '_') || decide (lowerAscii a = lowerAscii c)) && likeMatch ps t) := by
  simp only [likeMatch]
  rw [if_neg ha]

/-- A lone `%` matches everything: the empty suffix is always available. -/
theorem likeMatch_percent_only (t : List Char) : likeMatch ['%'] t = true := by
  rw [likeMatch_percent, List.any_eq_true]
  exact ⟨[], (List.mem_tails _ _).mpr List.nil_suffix, rfl⟩

/-- On a pattern free of `%` and `_`, `LIKE`-matching `pattern ++ ['%']` is the
ASCII-case-insensitive prefix test. -/
theorem likeMatch_plain_prefix (k : List Char) :
    ∀ t : List Char, (∀ c ∈ k, c ≠ '%' ∧ c ≠ '_') →
      likeMatch (k ++ ['%']) t = prefixB (k.map lowerAscii) (t.map lowerAscii) := by
  induction k with
  | nil =>
    intro t _
    simp only [List.nil_append, List.map_nil]
    rw [likeMatch_percent_only]
    rfl
  | cons a k ih =>
    intro t hk
    have ha := hk a (List.mem_cons_self a k)
    have hk' : ∀ c ∈ k, c ≠ '%' ∧ c ≠ '_' := fun c hc => hk c (List.mem_cons_of_mem _ hc)
    cases t with
    | nil =>
      rw [List.cons_append, likeMatch_cons_nil a _ ha.1]
      rfl
    | cons c t' =>
      rw [List.cons_append, likeMatch_cons_cons a _ c t' ha.1, ih t' hk']
      have hu : decide (a = '_') = false := by simp [ha.2]
      rw [hu, Bool.false_or]
      rfl

/-- On a keyword free of `%` and `_`, the source's `LIKE '%keyword%'` test is
exactly the ASCII-case-insensitive substring test. -/
theorem likeContains_plain (kw s : String)
    (hk : ∀ c ∈ kw.toList, c ≠ '%' ∧ c ≠ '_') :
    likeContains kw s =
      subB (kw.toList.map lowerAscii) (s.toList.map lowerAscii) := by
  unfold likeContains subB
  rw [likeMatch_percent]
  have hfun : (fun t => likeMatch (kw.toList ++ ['%']) t) =
      (fun t => prefixB (kw.toList.map lowerAscii) (t.map lowerAscii)) :=
    funext (fun t => likeMatch_plain_prefix kw.toList t hk)
  rw [hfun, List.map_tails, List.any_map]
  rfl

/-- `prefixB` really is the prefix relation. -/
theorem prefixB_iff (k : List Char) : ∀ t, prefixB k t = true ↔ ∃ r, t = k ++ r := by
  induction k with
  | nil =>
    intro t
    simp [prefixB]
  | cons a k ih =>
    intro t
    cases t with
    | nil => simp [prefixB]
    | cons c t' =>
      simp only [prefixB, Bool.and_eq_true, decide_eq_true_eq]
      constructor
      · rintro ⟨rfl, hp⟩
        obtain ⟨r, rfl⟩ := (ih t').mp hp
        exact ⟨r, rfl⟩
      · rintro ⟨r, hr⟩
        injection hr with h1 h2
        subst h1
        exact ⟨rfl, (ih t').mpr ⟨r, h2⟩⟩

/-- `subB` really is the contiguous-substring relation. -/
theorem subB_iff (k s : List Char) : subB k s = true ↔ ∃ l r, s = l ++ k ++ r := by
  unfold subB
  rw [List.any_eq_true]
  constructor
  · rintro ⟨t, ht, hp⟩
    obtain ⟨r, rfl⟩ := (prefixB_iff k t).mp hp
    obtain ⟨l, hl⟩ := (List.mem_tails _ _).mp ht
    exact ⟨l, r, by rw [← hl, List.append_assoc]⟩
  · rintro ⟨l, r, rfl⟩
    exact ⟨k ++ r, (List.mem_tails _ _).mpr ⟨l, by rw [List.append_assoc]⟩,
      (prefixB_iff k (k ++ r)).mpr ⟨r, rfl⟩⟩

/-! ### Claim C8 -/

/-- C8 (amended): for a keyword free of the `LIKE` metacharacters `%` and `_`,
`search_products` returns exactly the *active* products whose name or barcode
contains the keyword as an ASCII-case-*insensitive* substring (the source uses
SQLite `LIKE`, which is case-insensitive for ASCII — not case-sensitive as
claimed; see the counterexample), and all active products when the keyword is
empty; inactive products never appear. -/
theorem search_products_ci_spec (db : DBState) (kw : String)
    (hk : ∀ c ∈ kw.toList, c ≠ '%' ∧ c ≠ '_') :
    search_products db kw =
      if kw = "" then db.products.filter (fun p => p.active)
      else
        db.products.filter (fun p =>
          (subB (kw.toList.map lowerAscii) (p.name.toList.map lowerAscii)
            || subB (kw.toList.map lowerAscii) (p.barcode.toList.map lowerAscii))
          && p.active) := by
  unfold search_products
  by_cases h : kw = ""
  · simp [h]
  · rw [if_pos h, if_neg h]
    apply List.filter_congr
    intro p _
    rw [likeContains_plain kw p.name hk, likeContains_plain kw p.barcode hk]

def w8db : DBState :=
  ⟨[⟨1, "Coca Cola 330ml", 3, "Drinks", "6901234567890", 100, 10, true⟩,
    ⟨2, "Noodles Beef Flavor", 9/2, "Food", "6923456789012", 50, 20, false⟩],
   [], [], []⟩

/-- Witness for C8 at keyword `"cola"`: the search over a catalog with one
active and one inactive product equals the case-insensitive-substring filter
over active products. -/
theorem search_products_ci_spec_witness :
    search_products w8db "cola" =
      if ("cola" : String) = "" then w8db.products.filter (fun p => p.active)
      else
        w8db.products.filter (fun p =>
          (subB ("cola".toList.map lowerAscii) (p.name.toList.map lowerAscii)
            || subB ("cola".toList.map lowerAscii) (p.barcode.toList.map lowerAscii))
          && p.active) :=
  search_products_ci_spec w8db "cola" (by decide)

/-- Counterexample for C8 as stated: searching `"COLA"` returns the active
product `"Coca Cola 330ml"` (id 1) although neither its name nor its barcode
contains `"COLA"` as a case-sensitive substring — `LIKE` matched it
case-insensitively, so `search` is not the case-sensitive filter the claim
describes. -/
theorem search_case_sensitivity_cex :
    ((search_products
        ⟨[⟨1, "Coca Cola 330ml", 3, "Drinks", "6901234567890", 100, 10, true⟩],
          [], [], []⟩ "COLA").map Product.id = [1]) ∧
    subB "COLA".toList "Coca Cola 330ml".toList = false ∧
    subB "COLA".toList "6901234567890".toList = false := by
  decide

end POS
